import Mathlib

/-!
Verification development for the passage model of this repository
(`src/data/models/passage.js`).  The JavaScript source is shallowly
embedded: passage positions become a record of rational coordinates,
the regex-based link engine becomes executable scanners over `List Char`
that hand-compile the exact backtracking semantics of each regular
expression used by the source, and the Backbone attribute writes become
explicit state-passing functions.
-/

namespace Passage

/-- Coordinate attributes of a passage (`left`, `top`), the only
attributes the layout resolver reads and writes.  JavaScript numbers are
modelled as rationals; all constants involved (100, 12.5) are exact in
this representation. -/
structure Pos where
  left : ℚ
  top : ℚ
deriving DecidableEq

/-- The largest width a passage will have onscreen (`passage.js` line 414). -/
def width : ℚ := 100

/-- The largest height a passage will have onscreen (`passage.js` line 424). -/
def height : ℚ := 100

/-- The padding around a passage that still triggers intersection
(`passage.js` line 434). -/
def padding : ℚ := 12.5

/-- Intersection test of the padded rectangles, the four-inequality test of
`intersects` (`passage.js` lines 326-335), with `this` as `a` and `other`
as `o`. -/
def intersects (a o : Pos) : Prop :=
  a.left - padding < o.left + width + padding ∧
  a.left + width + padding > o.left - padding ∧
  a.top - padding < o.top + height + padding ∧
  a.top + height + padding > o.top - padding

instance (a o : Pos) : Decidable (intersects a o) := by
  unfold intersects
  infer_instance

/-- Backbone `set('left', v)` including the registered change handler of
`initialize` (`passage.js` lines 58-68), which silently resets a negative
changed coordinate to `0`.  No error is ever raised. -/
def setLeft (q : Pos) (v : ℚ) : Pos :=
  { q with left := if v < 0 then 0 else v }

/-- Backbone `set('top', v)` including the clamping change handler of
`initialize` (`passage.js` lines 58-68). -/
def setTop (q : Pos) (v : ℚ) : Pos :=
  { q with top := if v < 0 then 0 else v }

/-- The `tLeft`/`oLeft` value of `displace` (`passage.js` lines 348, 352). -/
def padLeft (q : Pos) : ℚ := q.left - padding

/-- The `tRight`/`oRight` value of `displace` (`passage.js` lines 349, 353). -/
def padRight (q : Pos) : ℚ := padLeft q + width + padding * 2

/-- The `tTop`/`oTop` value of `displace` (`passage.js` lines 350, 354). -/
def padTop (q : Pos) : ℚ := q.top - padding

/-- The `tBottom`/`oBottom` value of `displace` (`passage.js` lines 351, 355). -/
def padBottom (q : Pos) : ℚ := padTop q + height + padding * 2

/-- Candidate `leftMove` of `displace` (`passage.js` line 369):
`(oLeft - tLeft) + Passage.width + p` with anchor `a` and other `o`. -/
def leftMove (a o : Pos) : ℚ := (padLeft o - padLeft a) + width + padding

/-- Candidate `rightMove` of `displace` (`passage.js` line 370):
`tRight - oLeft + p`. -/
def rightMove (a o : Pos) : ℚ := padRight a - padLeft o + padding

/-- Candidate `upMove` of `displace` (`passage.js` line 383):
`(oTop - tTop) + Passage.height + p`. -/
def upMove (a o : Pos) : ℚ := (padTop o - padTop a) + height + padding

/-- Candidate `downMove` of `displace` (`passage.js` line 384):
`tBottom - oTop + p`. -/
def downMove (a o : Pos) : ℚ := padBottom a - padTop o + padding

/-- The `xChange` chosen by `displace` (`passage.js` lines 368-378).  In the
source the assignment is guarded by `xOverlap !== 0`; the guard always
passes on the overlapping inputs (`intersects a o`) under which `displace`
is specified and used, and every theorem below assumes that hypothesis. -/
def xChange (a o : Pos) : ℚ :=
  if leftMove a o < rightMove a o then -(leftMove a o) else rightMove a o

/-- The `yChange` chosen by `displace` (`passage.js` lines 382-392), with
the same remark about the `yOverlap !== 0` guard as for `xChange`. -/
def yChange (a o : Pos) : ℚ :=
  if upMove a o < downMove a o then -(upMove a o) else downMove a o

/-- The final axis choice of `displace` (`passage.js` lines 396-401):
`if (Math.abs(xChange) > Math.abs(yChange)) other.set('top', oTop + yChange)
else other.set('left', oLeft + xChange)`.  The Backbone `set` calls go
through the clamping change handler, hence `setTop`/`setLeft`. -/
def displace (a o : Pos) : Pos :=
  if |xChange a o| > |yChange a o| then setTop o (padTop o + yChange a o)
  else setLeft o (padLeft o + xChange a o)

/-- The raw value `displace` writes to the chosen coordinate of `other`
before the change handler's negative clamp is applied. -/
def displacedValue (a o : Pos) : ℚ :=
  if |xChange a o| > |yChange a o| then padTop o + yChange a o
  else padLeft o + xChange a o

/-- Characters matched by an unescaped `.` in a JavaScript regex
(everything except the four line terminators). -/
def isDotChar (c : Char) : Bool :=
  c ≠ '\n' && c ≠ '\r' && c ≠ '\u2028' && c ≠ '\u2029'

/-- Scan for the first `]]`, as the lazy `.*?\]\]` of the token regex
`/\[\[.*?\]\]/g` (`passage.js` line 139) and of the setter sub-patterns
`\]\[.*?\]\]` do: the shortest run of `.`-matchable characters followed by
a literal `]]`.  Returns the run and the remainder after the `]]`. -/
def findClose : List Char → Option (List Char × List Char)
| ']' :: ']' :: rest => some ([], rest)
| c :: rest =>
    if isDotChar c then
      match findClose rest with
      | some (inner, rest2) => some (c :: inner, rest2)
      | none => none
    else none
| [] => none

/-- Fueled left-to-right global scan of `/\[\[.*?\]\]/g` (`passage.js`
line 139): at each position, a match needs a literal `[[` and a reachable
`]]`; on failure the scan advances one character, on success it continues
after the match.  Fuel `length + 1` always suffices because every step
strictly shortens the remaining input. -/
def findTokensGo : Nat → List Char → List (List Char)
| 0, _ => []
| f + 1, '[' :: '[' :: rest =>
    match findClose rest with
    | some (inner, rest2) =>
        ('[' :: '[' :: (inner ++ [']', ']'])) :: findTokensGo f rest2
    | none => findTokensGo f ('[' :: rest)
| f + 1, _ :: rest => findTokensGo f rest
| _ + 1, [] => []

/-- The list of matches of `text.match(/\[\[.*?\]\]/g)` (`passage.js`
line 139), `null` becoming the empty list. -/
def findTokens (l : List Char) : List (List Char) :=
  findTokensGo (l.length + 1) l

/-- The trailing `(?:\]\[.*?)?\]\]` (or, with the group captured,
`(\]\[.*?)?\]\]`) shared by every link regex of `passage.js`: the greedy
optional setter branch `][` + lazy run is tried first, then the bare `]]`.
Returns the consumed setter text (without the final `]]`) and the
remainder after the `]]`. -/
def setterTail : List Char → Option (List Char × List Char)
| ']' :: '[' :: w =>
    match findClose w with
    | some (t, rest) => some (']' :: '[' :: t, rest)
    | none => none
| ']' :: ']' :: rest => some ([], rest)
| _ => none

/-- Group 3 of the arrow regex (`passage.js` line 163) plus its tail: the
greedy `([^\]]*)` is forced to the maximal `]`-free run, because the
pattern after it can only start with `]`; then the setter-or-`]]` tail
must match.  Returns group 3 and the remainder after the match. -/
def tailT (w : List Char) : Option (List Char × List Char) :=
  match setterTail (w.dropWhile (fun c => c ≠ ']')) with
  | some (_, rest) => some (w.takeWhile (fun c => c ≠ ']'), rest)
  | none => none

/-- All decompositions `v = g1 ++ "->" ++ w` with `g1` free of `]`, in
order of increasing `g1` length.  These are the backtracking candidates of
the first arrow alternative `([^\]]*)\->` of `passage.js` line 163; the
greedy group tries them longest first, i.e. in reverse of this list. -/
def ddSplits : List Char → List (List Char × List Char)
| [] => []
| '-' :: '>' :: rest =>
    ([], rest) :: (ddSplits ('>' :: rest)).map (fun gw => ('-' :: gw.1, gw.2))
| c :: rest =>
    if c = ']' then [] else (ddSplits rest).map (fun gw => (c :: gw.1, gw.2))

/-- All decompositions `v = g2 ++ "<-" ++ w` with `g2` free of `]`, in
order of increasing `g2` length.  These are the backtracking candidates of
the second arrow alternative `([^\]]*?)<\-` of `passage.js` line 163; the
lazy group tries them shortest first, i.e. in this list's order. -/
def laSplits : List Char → List (List Char × List Char)
| [] => []
| '<' :: '-' :: rest =>
    ([], rest) :: (laSplits ('-' :: rest)).map (fun gw => ('<' :: gw.1, gw.2))
| c :: rest =>
    if c = ']' then [] else (laSplits rest).map (fun gw => (c :: gw.1, gw.2))

/-- One match attempt of the arrow regex
`\[\[(?:([^\]]*)\->|([^\]]*?)<\-)([^\]]*)(?:\]\[.*?)?\]\]`
(`passage.js` line 163) at a position whose `[[` has already been
consumed (`v` is the rest).  The ordered alternation tries the `->`
alternative with a greedy group 1 (candidates longest first), then the
`<-` alternative with a lazy group 2 (candidates shortest first).  The
result is the replacement produced by `arrowReplacer = (a, b, c, d) =>
c || d` (`passage.js` line 143) - group 3 for the `->` form, group 2 for
the `<-` form unless it is empty (JavaScript `||` treats `''` as false,
falling through to group 3) - together with the remainder after the
match. -/
def arrowMatch (v : List Char) : Option (List Char × List Char) :=
  match (ddSplits v).reverse.findSome?
      (fun gw => match tailT gw.2 with
        | some (g3, rest) => some (g3, rest)
        | none => none) with
  | some res => some res
  | none =>
      (laSplits v).findSome?
        (fun gw => match tailT gw.2 with
          | some (g3, rest) => some (if gw.1.isEmpty then g3 else gw.1, rest)
          | none => none)

/-- Fueled global replace of the arrow regex (`passage.js` line 163) with
the `arrowReplacer` callback: leftmost matches, scanning resumes after
each match.  Fuel `length + 1` suffices as every step strictly shortens
the input. -/
def arrowReplaceAllGo : Nat → List Char → List Char
| 0, l => l
| f + 1, '[' :: '[' :: v =>
    match arrowMatch v with
    | some (repl, rest) => repl ++ arrowReplaceAllGo f rest
    | none => '[' :: arrowReplaceAllGo f ('[' :: v)
| f + 1, c :: rest => c :: arrowReplaceAllGo f rest
| _ + 1, [] => []

/-- The first `.replace` of `links()` (`passage.js` line 163). -/
def arrowReplaceAll (l : List Char) : List Char :=
  arrowReplaceAllGo (l.length + 1) l

/-- Group 1 of the pipe regex (`passage.js` line 171): the lazy
`([^\|\]]*?)` followed by the literal `|` forces a split at the first `|`,
failing if a `]` (or the end) comes first.  Returns the text after the
`|`. -/
def splitAtPipe : List Char → Option (List Char × List Char)
| [] => none
| '|' :: rest => some ([], rest)
| ']' :: _ => none
| c :: rest => (splitAtPipe rest).map (fun gw => (c :: gw.1, gw.2))

/-- Group 2 of the pipe regex (`passage.js` line 171) plus its tail: the
optional greedy `([^\|\]]*)?` is forced to the maximal `|`- and `]`-free
run (the tail can only start with `]`), then the setter-or-`]]` tail must
match.  Returns group 2 (an absent group behaves as the empty replacement
`$2` does) and the remainder after the match. -/
def tailP (w : List Char) : Option (List Char × List Char) :=
  match setterTail (w.dropWhile (fun c => c ≠ ']' && c ≠ '|')) with
  | some (_, rest) => some (w.takeWhile (fun c => c ≠ ']' && c ≠ '|'), rest)
  | none => none

/-- One match attempt of the pipe regex
`\[\[([^\|\]]*?)\|([^\|\]]*)?(?:\]\[.*?)?\]\]` (`passage.js` line 171) at
a position whose `[[` has been consumed.  The replacement is `$2`. -/
def pipeMatch (v : List Char) : Option (List Char × List Char) :=
  match splitAtPipe v with
  | some (_, afterPipe) => tailP afterPipe
  | none => none

/-- Fueled global replace of the pipe regex (`passage.js` line 171) with
replacement `'$2'`. -/
def pipeReplaceAllGo : Nat → List Char → List Char
| 0, l => l
| f + 1, '[' :: '[' :: v =>
    match pipeMatch v with
    | some (repl, rest) => repl ++ pipeReplaceAllGo f rest
    | none => '[' :: pipeReplaceAllGo f ('[' :: v)
| f + 1, c :: rest => c :: pipeReplaceAllGo f rest
| _ + 1, [] => []

/-- The second `.replace` of `links()` (`passage.js` line 171). -/
def pipeReplaceAll (l : List Char) : List Char :=
  pipeReplaceAllGo (l.length + 1) l

/-- Fueled global replace of `/\[\[|(?:\]\[.*?)?\]\]/g` with `''`
(`passage.js` line 177): removes every `[[`, every `][` + lazy run + `]]`,
and every bare `]]`, scanning left to right. -/
def stripBracketsGo : Nat → List Char → List Char
| 0, l => l
| f + 1, '[' :: '[' :: rest => stripBracketsGo f rest
| f + 1, ']' :: '[' :: rest =>
    match findClose rest with
    | some (_, rest2) => stripBracketsGo f rest2
    | none => ']' :: stripBracketsGo f ('[' :: rest)
| f + 1, ']' :: ']' :: rest => stripBracketsGo f rest
| f + 1, c :: rest => c :: stripBracketsGo f rest
| _ + 1, [] => []

/-- The third `.replace` of `links()` (`passage.js` line 177). -/
def stripBrackets (l : List Char) : List Char :=
  stripBracketsGo (l.length + 1) l

/-- Resolution of one matched token to its link target: the three chained
`.replace` calls of `links()` (`passage.js` lines 150-177). -/
def resolveToken (tok : List Char) : List Char :=
  stripBrackets (pipeReplaceAll (arrowReplaceAll tok))

/-- Property names every plain JavaScript object inherits from
`Object.prototype`.  The seen-set of `links()` is the object literal
`const found = \x7b\x7d` (`passage.js` line 140), and the membership test
`found[link] === undefined` (line 181) also sees these inherited
properties, none of which is `undefined`. -/
def protoKeys : List (List Char) :=
  ["constructor".data, "hasOwnProperty".data, "isPrototypeOf".data,
   "propertyIsEnumerable".data, "toLocaleString".data, "toString".data,
   "valueOf".data, "__defineGetter__".data, "__defineSetter__".data,
   "__lookupGetter__".data, "__lookupSetter__".data, "__proto__".data]

/-- The push condition `link !== '' && found[link] === undefined` of
`links()` (`passage.js` line 181), `found` holding the own keys pushed so
far and the lookup also hitting the `Object.prototype` keys. -/
def freshLink (found : List (List Char)) (link : List Char) : Bool :=
  decide (link ≠ []) && !(decide (link ∈ found) || decide (link ∈ protoKeys))

/-- The accumulation loop of `links()` (`passage.js` lines 146-185):
resolve each match, push it onto the result and record it in `found` when
it is non-empty and not yet seen. -/
def linksCore : List (List Char) → List (List Char) → List (List Char)
| [], _ => []
| m :: ms, found =>
    if freshLink found (resolveToken m) then
      resolveToken m :: linksCore ms (resolveToken m :: found)
    else linksCore ms found

/-- JavaScript `\w` (ASCII word character; the regex's `i` flag is
irrelevant to it). -/
def isWordChar (c : Char) : Bool :=
  ('a' ≤ c && c ≤ 'z') || ('A' ≤ c && c ≤ 'Z') || ('0' ≤ c && c ≤ '9') || c = '_'

/-- The `\/\/\/?\w` part of the URI test: `//`, then an optional third `/`
(greedy, with backtracking to the empty option, which then requires a word
character where the `/` stands), then a word character. -/
def uriSlashes : List Char → Bool
| '/' :: '/' :: rest =>
    (match rest with
     | '/' :: r2 => (match r2 with | c :: _ => isWordChar c | [] => false)
     | c :: _ => isWordChar c
     | [] => false)
| _ => false

/-- Continuation of the URI test after the leading word run: the greedy
`\w+` is forced to the maximal word run (no word character is `:`), then
`:` must follow. -/
def uriAfterWord : List Char → Bool
| c :: rest => if isWordChar c then uriAfterWord rest else c = ':' && uriSlashes rest
| [] => false

/-- The internal-link filter test `/^\w+:\/\/\/?\w/i.test(link)`
(`passage.js` line 189), anchored at the start of the link. -/
def isAbsoluteUri (l : List Char) : Bool :=
  match l with
  | c :: rest => isWordChar c && uriAfterWord rest
  | [] => false

/-- The `links(internalOnly)` method (`passage.js` lines 138-193), with
the passage text passed explicitly.  A `null` result of `match` behaves
as the empty match list. -/
def links (text : List Char) (internalOnly : Bool) : List (List Char) :=
  if internalOnly then
    (linksCore (findTokens text) []).filter (fun l => !(isAbsoluteUri l))
  else linksCore (findTokens text) []

/-- First-seen-order deduplication, written from the claim's words
("deduplicated by exact string equality preserving first-seen order") as
the specification-side description to compare `links` against. -/
def firstSeenDedup : List (List Char) → List (List Char)
| [] => []
| x :: xs => x :: firstSeenDedup (xs.filter (fun y => decide (y ≠ x)))
termination_by l => l.length
decreasing_by
  simp only [List.length_cons]
  exact Nat.lt_succ_of_le (List.length_filter_le _ _)

/-- Naive substring test: whether `pat` occurs contiguously in `l`. -/
def containsSeq : List Char → List Char → Bool
| [], pat => pat.isEmpty
| c :: rest, pat => pat.isPrefixOf (c :: rest) || containsSeq rest pat

/-- Whether a link name contains no character that is special in a
JavaScript regular expression.  `replaceLink` builds its patterns by
splicing the raw name into a regex (`passage.js` lines 207-218); the spec
declares the behaviour for names with metacharacters undefined and makes
safe names the caller's responsibility, so the embedding below reads the
spliced name literally and the theorems restrict themselves to
metacharacter-free names. -/
def regexLiteral (l : List Char) : Bool :=
  l.all (fun c =>
    !(['\\', '^', '$', '.', '|', '?', '*', '+', '(', ')', '[', ']',
       '\x7b', '\x7d'].contains c))

/-- Fueled global replace of the `simpleLinkRegexp`
`\[\[old(\]\[.*?)?\]\]` (`passage.js` lines 207-210) with replacement
`'[[' + newLink + '$1]]'`. -/
def replaceSimpleGo (old new : List Char) : Nat → List Char → List Char
| 0, l => l
| f + 1, '[' :: '[' :: v =>
    if old.isPrefixOf v then
      match setterTail (v.drop old.length) with
      | some (s, rest) =>
          '[' :: '[' :: (new ++ s ++ [']', ']']) ++ replaceSimpleGo old new f rest
      | none => '[' :: replaceSimpleGo old new f ('[' :: v)
    else '[' :: replaceSimpleGo old new f ('[' :: v)
| f + 1, c :: rest => c :: replaceSimpleGo old new f rest
| _ + 1, [] => []

/-- The first rewrite of `replaceLink` (`passage.js` line 222). -/
def replaceSimple (old new l : List Char) : List Char :=
  replaceSimpleGo old new (l.length + 1) l

/-- The `\->old` branch of the compound regex's `(\||->)` alternation at a
fixed group-1 end, followed by the setter-or-`]]` tail. -/
def compoundArrowAt (old v : List Char) : Option (List Char × List Char × List Char) :=
  if ('-' :: '>' :: old).isPrefixOf v then
    match setterTail (v.drop (old.length + 2)) with
    | some (s, rest) => some (['-', '>'], s, rest)
    | none => none
  else none

/-- One position of the backtracking of the compound regex
`\[\[(.*?)(\||->)old(\]\[.*?)?\]\]` (`passage.js` lines 211-214): at a
fixed end of the lazy group 1, the ordered alternation tries `\|` then
`\->`, each followed by the literal `old` and the tail.  Returns group 2,
group 3 (the setter) and the remainder. -/
def compoundAt (old v : List Char) : Option (List Char × List Char × List Char) :=
  if ('|' :: old).isPrefixOf v then
    match setterTail (v.drop (old.length + 1)) with
    | some (s, rest) => some (['|'], s, rest)
    | none => compoundArrowAt old v
  else compoundArrowAt old v

/-- Backtracking search of the compound regex after its `\[\[`: the lazy
group 1 grows one `.`-matchable character at a time, each end being tried
with `compoundAt`.  Returns group 1, group 2, the setter group and the
remainder after the match. -/
def compoundTry (old : List Char) : List Char → Option (List Char × (List Char × (List Char × List Char)))
| [] => none
| c :: rest =>
    match compoundAt old (c :: rest) with
    | some (g2, s, r) => some ([], (g2, (s, r)))
    | none =>
        if isDotChar c then
          (compoundTry old rest).map (fun x => (c :: x.1, x.2))
        else none

/-- Fueled global replace of the `compoundLinkRegexp` (`passage.js` lines
211-214) with replacement `'[[$1$2' + newLink + '$3]]'`. -/
def replaceCompoundGo (old new : List Char) : Nat → List Char → List Char
| 0, l => l
| f + 1, '[' :: '[' :: v =>
    match compoundTry old v with
    | some (g1, (g2, (s, rest))) =>
        '[' :: '[' :: (g1 ++ g2 ++ new ++ s ++ [']', ']']) ++
          replaceCompoundGo old new f rest
    | none => '[' :: replaceCompoundGo old new f ('[' :: v)
| f + 1, c :: rest => c :: replaceCompoundGo old new f rest
| _ + 1, [] => []

/-- The second rewrite of `replaceLink` (`passage.js` line 223). -/
def replaceCompound (old new l : List Char) : List Char :=
  replaceCompoundGo old new (l.length + 1) l

/-- The lazy `.*?` inside the reverse regex's group `(<-.*?)`, growing
shortest-first until the setter-or-`]]` tail matches.  Returns the lazy
run, the setter group and the remainder. -/
def revTail : List Char → Option (List Char × (List Char × List Char))
| [] => none
| c :: rest =>
    match setterTail (c :: rest) with
    | some (s, r) => some ([], (s, r))
    | none =>
        if isDotChar c then
          (revTail rest).map (fun x => (c :: x.1, x.2))
        else none

/-- Fueled global replace of the `reverseLinkRegexp`
`\[\[old(<-.*?)(\]\[.*?)?\]\]` (`passage.js` lines 215-218) with
replacement `'[[' + newLink + '$1$2]]'`. -/
def replaceReverseGo (old new : List Char) : Nat → List Char → List Char
| 0, l => l
| f + 1, '[' :: '[' :: v =>
    if (old ++ ['<', '-']).isPrefixOf v then
      match revTail (v.drop (old.length + 2)) with
      | some (t, (s, rest)) =>
          '[' :: '[' :: (new ++ '<' :: '-' :: t ++ s ++ [']', ']']) ++
            replaceReverseGo old new f rest
      | none => '[' :: replaceReverseGo old new f ('[' :: v)
    else '[' :: replaceReverseGo old new f ('[' :: v)
| f + 1, c :: rest => c :: replaceReverseGo old new f rest
| _ + 1, [] => []

/-- The third rewrite of `replaceLink` (`passage.js` line 224). -/
def replaceReverse (old new l : List Char) : List Char :=
  replaceReverseGo old new (l.length + 1) l

/-- The `replaceLink(oldLink, newLink)` method (`passage.js` lines
204-229): the three chained rewrites, then `this.save(\x7b text \x7d)`
exactly when the result differs from the original text.  The returned
Boolean records whether the save was issued. -/
def replaceLink (oldLink newLink text : List Char) : List Char × Bool :=
  if replaceReverse oldLink newLink
      (replaceCompound oldLink newLink (replaceSimple oldLink newLink text)) ≠ text
  then (replaceReverse oldLink newLink
      (replaceCompound oldLink newLink (replaceSimple oldLink newLink text)), true)
  else (text, false)

/-- The per-character map of underscore's `_.escape` (used by `excerpt`,
`passage.js` line 120). -/
def escapeChar (c : Char) : List Char :=
  if c = '&' then "&amp;".data
  else if c = '<' then "&lt;".data
  else if c = '>' then "&gt;".data
  else if c = '"' then "&quot;".data
  else if c = '\x27' then "&#x27;".data
  else if c = '\x60' then "&#x60;".data
  else [c]

/-- Underscore's `_.escape` over the whole text. -/
def uEscape : List Char → List Char
| [] => []
| c :: rest => escapeChar c ++ uEscape rest

/-- The `excerpt()` method (`passage.js` lines 119-127): escape first,
then truncate the escaped text at 99 characters with an `&hellip;` marker
when it is longer than 100 characters. -/
def excerpt (text : List Char) : List Char :=
  if (uEscape text).length > 100 then (uEscape text).take 99 ++ "&hellip;".data
  else uEscape text

/-- The attributes of a passage that `validate` reads.  A Backbone model
id is a number once saved and `undefined` before (`Option Nat`); loose
equality `==` on such values coincides with `Option` equality.  A missing
`name` and the empty name are both caught by the falsy test
`!attrs.name`, so a missing name is modelled as `""`. -/
structure Attrs where
  id : Option Nat
  name : String

/-- The options flags read by `validate` (`passage.js` lines 88, 94). -/
structure Opts where
  noValidation : Bool
  noDupeValidation : Bool

/-- JavaScript `toLowerCase`, per character. -/
def strLower (s : String) : String :=
  String.mk (s.data.map Char.toLower)

/-- The `isDupe` predicate inside `validate` (`passage.js` lines 96-100):
`attrs.id != passage.id && attrs.name.toLowerCase() ==
passage.get('name').toLowerCase()`. -/
def isDupe (attrs : Attrs) (p : Attrs) : Bool :=
  decide (attrs.id ≠ p.id) && decide (strLower attrs.name = strLower p.name)

/-- The `validate(attrs, options)` method (`passage.js` lines 87-109),
with the passage list of the owning story passed explicitly (the source
reads it through `this.fetchStory().fetchPassages()`).  Failures are
reported by returning a message; there is no exception channel. -/
def validate (storyPassages : List Attrs) (attrs : Attrs) (options : Opts) : Option String :=
  if options.noValidation then none
  else if attrs.name = "" then
    some ("You must give this passage a name.")
  else if options.noDupeValidation then none
  else if storyPassages.any (isDupe attrs) then
    some ("There is already a passage named \"" ++ attrs.name ++
      ".\" Please give this one a unique name.")
  else none

end Passage

open Passage

theorem padding_pos : (0 : ℚ) < padding := by
  norm_num [padding]

theorem leftMove_eq (a o : Pos) :
    leftMove a o = o.left - a.left + width + padding := by
  unfold leftMove padLeft
  ring

theorem rightMove_eq (a o : Pos) :
    rightMove a o = a.left - o.left + width + 3 * padding := by
  unfold rightMove padRight padLeft
  ring

theorem upMove_eq (a o : Pos) :
    upMove a o = o.top - a.top + height + padding := by
  unfold upMove padTop
  ring

theorem downMove_eq (a o : Pos) :
    downMove a o = a.top - o.top + height + 3 * padding := by
  unfold downMove padBottom padTop
  ring

/-- C10: the four-inequality padded-rectangle test is symmetric in its two
arguments, since both passages use the same class-level `width`, `height`
and `padding` constants. -/
theorem claim_c10 (a b : Pos) : intersects a b ↔ intersects b a := by
  unfold intersects
  constructor <;>
    (rintro ⟨h1, h2, h3, h4⟩
     exact ⟨by linarith, by linarith, by linarith, by linarith⟩)

/-- C8: a negative value written to `left` or `top` is silently clamped to
`0` by the change handler, every such write yields a non-negative stored
value, and `displace` (whose writes go through the same handler) preserves
the invariant `left ≥ 0 ∧ top ≥ 0` on its (overlapping) inputs. -/
theorem claim_c8 (q : Pos) (v : ℚ) (a o : Pos) :
    (v < 0 → (setLeft q v).left = 0 ∧ (setTop q v).top = 0) ∧
    (0 ≤ (setLeft q v).left ∧ 0 ≤ (setTop q v).top) ∧
    (intersects a o → 0 ≤ o.left → 0 ≤ o.top →
      0 ≤ (displace a o).left ∧ 0 ≤ (displace a o).top) := by
  refine ⟨fun hv => ⟨?_, ?_⟩, ⟨?_, ?_⟩, fun _ hl ht => ?_⟩
  · simp [setLeft, if_pos hv]
  · simp [setTop, if_pos hv]
  · simp only [setLeft]
    split_ifs with hv
    · exact le_refl 0
    · exact not_lt.mp hv
  · simp only [setTop]
    split_ifs with hv
    · exact le_refl 0
    · exact not_lt.mp hv
  · unfold displace
    split_ifs with hxy
    · refine ⟨by simpa [setTop] using hl, ?_⟩
      simp only [setTop]
      split_ifs with hv
      · exact le_refl 0
      · exact not_lt.mp hv
    · refine ⟨?_, by simpa [setLeft] using ht⟩
      simp only [setLeft]
      split_ifs with hv
      · exact le_refl 0
      · exact not_lt.mp hv

/-- C8 witness: the theorem applied at a clamped write and at an
overlapping displacement with non-negative coordinates. -/
theorem claim_c8_witness :
    (-5 : ℚ) < 0 ∧ intersects ⟨0, 0⟩ ⟨50, 0⟩ ∧
    ((setLeft ⟨1, 2⟩ (-5)).left = 0 ∧ (setTop ⟨1, 2⟩ (-5)).top = 0) ∧
    (0 ≤ (displace ⟨0, 0⟩ ⟨50, 0⟩).left ∧ 0 ≤ (displace ⟨0, 0⟩ ⟨50, 0⟩).top) := by
  have hv : (-5 : ℚ) < 0 := by norm_num
  have hi : intersects ⟨0, 0⟩ ⟨50, 0⟩ := by
    unfold intersects width height padding
    norm_num
  refine ⟨hv, hi, ?_, ?_⟩
  · exact (claim_c8 ⟨1, 2⟩ (-5) ⟨0, 0⟩ ⟨50, 0⟩).1 hv
  · exact (claim_c8 ⟨1, 2⟩ (-5) ⟨0, 0⟩ ⟨50, 0⟩).2.2 hi (by norm_num) (by norm_num)

/-- C1 counterexample: two passages both at the origin overlap, yet
`displace` leaves the displaced passage exactly where it was (the computed
new coordinate `-125` is clamped back to `0` by the change handler), so
afterwards the pair still intersects and no coordinate changed, contrary
to the claim. -/
theorem claim_c1_counterexample :
    intersects ⟨0, 0⟩ ⟨0, 0⟩ ∧
    displace ⟨0, 0⟩ ⟨0, 0⟩ = ⟨0, 0⟩ ∧
    intersects ⟨0, 0⟩ (displace ⟨0, 0⟩ ⟨0, 0⟩) := by
  have h1 : intersects ⟨0, 0⟩ ⟨0, 0⟩ := by
    unfold intersects width height padding
    norm_num
  have hx : xChange ⟨0, 0⟩ ⟨0, 0⟩ = -(225 / 2) := by
    norm_num [xChange, leftMove, rightMove, padLeft, padRight, width, padding]
  have hy : yChange ⟨0, 0⟩ ⟨0, 0⟩ = -(225 / 2) := by
    norm_num [yChange, upMove, downMove, padTop, padBottom, height, padding]
  have h2 : displace ⟨0, 0⟩ ⟨0, 0⟩ = ⟨0, 0⟩ := by
    unfold displace
    rw [hx, hy, if_neg (lt_irrefl _)]
    norm_num [setLeft, padLeft, padding, Pos.mk.injEq]
  refine ⟨h1, h2, ?_⟩
  rw [h2]
  exact h1

/-- C1 (amended): if the padded rectangles of `anchor` and `other` overlap
and the value `displace` computes for the displaced coordinate is
non-negative (so the change handler's clamp leaves it alone), then after
`displace(anchor, other)` the pair no longer intersects and exactly one of
`other`'s coordinates changed. -/
theorem claim_c1_amended (a o : Pos) (h : intersects a o)
    (hnc : 0 ≤ displacedValue a o) :
    ¬ intersects a (displace a o) ∧
    (((displace a o).left ≠ o.left ∧ (displace a o).top = o.top) ∨
     ((displace a o).left = o.left ∧ (displace a o).top ≠ o.top)) := by
  obtain ⟨h1, h2, h3, h4⟩ := h
  by_cases hxy : |xChange a o| > |yChange a o|
  · have hv : displacedValue a o = padTop o + yChange a o := by
      rw [displacedValue, if_pos hxy]
    rw [hv] at hnc
    have hset : displace a o = { o with top := padTop o + yChange a o } := by
      rw [displace, if_pos hxy, setTop, if_neg (not_lt.mpr hnc)]
    have hleft : (displace a o).left = o.left := by rw [hset]
    by_cases hud : upMove a o < downMove a o
    · have hnt : padTop o + yChange a o = a.top - height - 2 * padding := by
        rw [yChange, if_pos hud]
        unfold upMove padTop
        ring
      have htop : (displace a o).top = a.top - height - 2 * padding := by
        rw [hset]
        exact hnt
      refine ⟨?_, Or.inr ⟨hleft, ?_⟩⟩
      · rintro ⟨g1, g2, g3, g4⟩
        rw [htop] at g3
        linarith
      · rw [htop]
        intro heq
        linarith
    · have hnt : padTop o + yChange a o = a.top + height + 2 * padding := by
        rw [yChange, if_neg hud]
        unfold downMove padBottom padTop
        ring
      have htop : (displace a o).top = a.top + height + 2 * padding := by
        rw [hset]
        exact hnt
      refine ⟨?_, Or.inr ⟨hleft, ?_⟩⟩
      · rintro ⟨g1, g2, g3, g4⟩
        rw [htop] at g4
        linarith
      · rw [htop]
        intro heq
        linarith
  · have hv : displacedValue a o = padLeft o + xChange a o := by
      rw [displacedValue, if_neg hxy]
    rw [hv] at hnc
    have hset : displace a o = { o with left := padLeft o + xChange a o } := by
      rw [displace, if_neg hxy, setLeft, if_neg (not_lt.mpr hnc)]
    have htop : (displace a o).top = o.top := by rw [hset]
    by_cases hlr : leftMove a o < rightMove a o
    · have hnl : padLeft o + xChange a o = a.left - width - 2 * padding := by
        rw [xChange, if_pos hlr]
        unfold leftMove padLeft
        ring
      have hleft : (displace a o).left = a.left - width - 2 * padding := by
        rw [hset]
        exact hnl
      refine ⟨?_, Or.inl ⟨?_, htop⟩⟩
      · rintro ⟨g1, g2, g3, g4⟩
        rw [hleft] at g1
        linarith
      · rw [hleft]
        intro heq
        linarith
    · have hnl : padLeft o + xChange a o = a.left + width + 2 * padding := by
        rw [xChange, if_neg hlr]
        unfold rightMove padRight padLeft
        ring
      have hleft : (displace a o).left = a.left + width + 2 * padding := by
        rw [hset]
        exact hnl
      refine ⟨?_, Or.inl ⟨?_, htop⟩⟩
      · rintro ⟨g1, g2, g3, g4⟩
        rw [hleft] at g2
        linarith
      · rw [hleft]
        intro heq
        linarith

/-- C1 witness: the amended theorem applied to the overlapping pair at
(500, 500) and (550, 500), where the computed displaced value 625 is
non-negative. -/
theorem claim_c1_witness :
    intersects ⟨500, 500⟩ ⟨550, 500⟩ ∧
    0 ≤ displacedValue ⟨500, 500⟩ ⟨550, 500⟩ ∧
    (¬ intersects ⟨500, 500⟩ (displace ⟨500, 500⟩ ⟨550, 500⟩) ∧
     (((displace ⟨500, 500⟩ ⟨550, 500⟩).left ≠ (550 : ℚ) ∧
       (displace ⟨500, 500⟩ ⟨550, 500⟩).top = (500 : ℚ)) ∨
      ((displace ⟨500, 500⟩ ⟨550, 500⟩).left = (550 : ℚ) ∧
       (displace ⟨500, 500⟩ ⟨550, 500⟩).top ≠ (500 : ℚ)))) := by
  have hi : intersects ⟨500, 500⟩ ⟨550, 500⟩ := by
    unfold intersects width height padding
    norm_num
  have hx : xChange ⟨500, 500⟩ ⟨550, 500⟩ = 175 / 2 := by
    norm_num [xChange, leftMove, rightMove, padLeft, padRight, width, padding]
  have hy : yChange ⟨500, 500⟩ ⟨550, 500⟩ = -(225 / 2) := by
    norm_num [yChange, upMove, downMove, padTop, padBottom, height, padding]
  have habs : ¬ (|xChange ⟨500, 500⟩ ⟨550, 500⟩| > |yChange ⟨500, 500⟩ ⟨550, 500⟩|) := by
    rw [hx, hy, abs_neg]
    rw [abs_of_nonneg (by norm_num), abs_of_nonneg (by norm_num)]
    norm_num
  have hnc : 0 ≤ displacedValue ⟨500, 500⟩ ⟨550, 500⟩ := by
    rw [displacedValue, if_neg habs, hx]
    norm_num [padLeft, padding]
  exact ⟨hi, hnc, claim_c1_amended ⟨500, 500⟩ ⟨550, 500⟩ hi hnc⟩

/-- C2 counterexample: for the overlapping pair at (500, 500) and
(550, 500) the vertical candidate move has the larger absolute magnitude
(112.5 against 87.5), yet `displace` changes `left` and leaves `top`
untouched - it applies the axis with the *smaller* magnitude (the source
comment reads "choose the option that moves the other passage the
least"), not the larger one as the claim states. -/
theorem claim_c2_counterexample :
    intersects ⟨500, 500⟩ ⟨550, 500⟩ ∧
    |yChange ⟨500, 500⟩ ⟨550, 500⟩| > |xChange ⟨500, 500⟩ ⟨550, 500⟩| ∧
    (displace ⟨500, 500⟩ ⟨550, 500⟩).top = (500 : ℚ) ∧
    (displace ⟨500, 500⟩ ⟨550, 500⟩).left ≠ (550 : ℚ) := by
  have hi : intersects ⟨500, 500⟩ ⟨550, 500⟩ := by
    unfold intersects width height padding
    norm_num
  have hx : xChange ⟨500, 500⟩ ⟨550, 500⟩ = 175 / 2 := by
    norm_num [xChange, leftMove, rightMove, padLeft, padRight, width, padding]
  have hy : yChange ⟨500, 500⟩ ⟨550, 500⟩ = -(225 / 2) := by
    norm_num [yChange, upMove, downMove, padTop, padBottom, height, padding]
  have habs : ¬ (|xChange ⟨500, 500⟩ ⟨550, 500⟩| > |yChange ⟨500, 500⟩ ⟨550, 500⟩|) := by
    rw [hx, hy, abs_neg, abs_of_nonneg (by norm_num), abs_of_nonneg (by norm_num)]
    norm_num
  have hd : displace ⟨500, 500⟩ ⟨550, 500⟩ = ⟨625, 500⟩ := by
    unfold displace
    rw [if_neg habs, hx]
    norm_num [setLeft, padLeft, padding, Pos.mk.injEq]
  refine ⟨hi, ?_, ?_, ?_⟩
  · rw [hx, hy, abs_neg, abs_of_nonneg (by norm_num), abs_of_nonneg (by norm_num)]
    norm_num
  · rw [hd]
  · rw [hd]
    norm_num

/-- C2 (amended): on overlapping inputs `displace` keeps, for each axis,
the code's candidate move of least absolute magnitude
(`|xChange| = min |leftMove| |rightMove|`, `|yChange| = min |upMove|
|downMove|`), and then applies only the axis whose chosen move has the
*smaller or equal* absolute magnitude, writing the padded coordinate plus
the move through the clamping setter and leaving the other coordinate
untouched. -/
theorem claim_c2_amended (a o : Pos) (h : intersects a o) :
    |xChange a o| = min |leftMove a o| |rightMove a o| ∧
    |yChange a o| = min |upMove a o| |downMove a o| ∧
    ((|xChange a o| > |yChange a o| ∧
      displace a o = setTop o (padTop o + yChange a o) ∧
      (displace a o).left = o.left) ∨
     (¬(|xChange a o| > |yChange a o|) ∧
      displace a o = setLeft o (padLeft o + xChange a o) ∧
      (displace a o).top = o.top)) := by
  obtain ⟨h1, h2, h3, h4⟩ := h
  have e1 := leftMove_eq a o
  have e2 := rightMove_eq a o
  have e3 := upMove_eq a o
  have e4 := downMove_eq a o
  have hpad := padding_pos
  have hr2 : padding < rightMove a o := by
    rw [e2]
    linarith
  have hl2 : -(padding) < leftMove a o := by
    rw [e1]
    linarith
  have hd2 : padding < downMove a o := by
    rw [e4]
    linarith
  have hu2 : -(padding) < upMove a o := by
    rw [e3]
    linarith
  refine ⟨?_, ?_, ?_⟩
  · by_cases hlr : leftMove a o < rightMove a o
    · rw [xChange, if_pos hlr, abs_neg]
      have hle : |leftMove a o| ≤ |rightMove a o| := by
        rcases le_or_lt 0 (leftMove a o) with h0 | h0
        · rw [abs_of_nonneg h0, abs_of_nonneg (le_of_lt (lt_trans hpad hr2))]
          linarith
        · rw [abs_of_neg h0, abs_of_nonneg (le_of_lt (lt_trans hpad hr2))]
          linarith
      rw [min_eq_left hle]
    · rw [xChange, if_neg hlr]
      have hge := not_lt.mp hlr
      have hr : (0 : ℚ) < rightMove a o := lt_trans hpad hr2
      have hle : |rightMove a o| ≤ |leftMove a o| := by
        rw [abs_of_nonneg hr.le, abs_of_nonneg (hr.le.trans hge)]
        exact hge
      rw [min_eq_right hle]
  · by_cases hud : upMove a o < downMove a o
    · rw [yChange, if_pos hud, abs_neg]
      have hle : |upMove a o| ≤ |downMove a o| := by
        rcases le_or_lt 0 (upMove a o) with h0 | h0
        · rw [abs_of_nonneg h0, abs_of_nonneg (le_of_lt (lt_trans hpad hd2))]
          linarith
        · rw [abs_of_neg h0, abs_of_nonneg (le_of_lt (lt_trans hpad hd2))]
          linarith
      rw [min_eq_left hle]
    · rw [yChange, if_neg hud]
      have hge := not_lt.mp hud
      have hd : (0 : ℚ) < downMove a o := lt_trans hpad hd2
      have hle : |downMove a o| ≤ |upMove a o| := by
        rw [abs_of_nonneg hd.le, abs_of_nonneg (hd.le.trans hge)]
        exact hge
      rw [min_eq_right hle]
  · by_cases hxy : |xChange a o| > |yChange a o|
    · refine Or.inl ⟨hxy, by rw [displace, if_pos hxy], ?_⟩
      rw [displace, if_pos hxy]
      simp [setTop]
    · refine Or.inr ⟨hxy, by rw [displace, if_neg hxy], ?_⟩
      rw [displace, if_neg hxy]
      simp [setLeft]

/-- C2 witness: the amended theorem applied to the overlapping pair at
(500, 500) and (550, 500). -/
theorem claim_c2_witness :
    intersects ⟨500, 500⟩ ⟨550, 500⟩ ∧
    (|xChange ⟨500, 500⟩ ⟨550, 500⟩| =
      min |leftMove ⟨500, 500⟩ ⟨550, 500⟩| |rightMove ⟨500, 500⟩ ⟨550, 500⟩| ∧
    |yChange ⟨500, 500⟩ ⟨550, 500⟩| =
      min |upMove ⟨500, 500⟩ ⟨550, 500⟩| |downMove ⟨500, 500⟩ ⟨550, 500⟩| ∧
    ((|xChange ⟨500, 500⟩ ⟨550, 500⟩| > |yChange ⟨500, 500⟩ ⟨550, 500⟩| ∧
      displace ⟨500, 500⟩ ⟨550, 500⟩ =
        setTop ⟨550, 500⟩ (padTop ⟨550, 500⟩ + yChange ⟨500, 500⟩ ⟨550, 500⟩) ∧
      (displace ⟨500, 500⟩ ⟨550, 500⟩).left = (⟨550, 500⟩ : Pos).left) ∨
     (¬(|xChange ⟨500, 500⟩ ⟨550, 500⟩| > |yChange ⟨500, 500⟩ ⟨550, 500⟩|) ∧
      displace ⟨500, 500⟩ ⟨550, 500⟩ =
        setLeft ⟨550, 500⟩ (padLeft ⟨550, 500⟩ + xChange ⟨500, 500⟩ ⟨550, 500⟩) ∧
      (displace ⟨500, 500⟩ ⟨550, 500⟩).top = (⟨550, 500⟩ : Pos).top))) := by
  have hi : intersects ⟨500, 500⟩ ⟨550, 500⟩ := by
    unfold intersects width height padding
    norm_num
  exact ⟨hi, claim_c2_amended ⟨500, 500⟩ ⟨550, 500⟩ hi⟩

theorem freshLink_cons (link : List Char) (found : List (List Char)) (y : List Char) :
    freshLink (link :: found) y = (decide (y ≠ link) && freshLink found y) := by
  simp only [freshLink, List.mem_cons]
  by_cases h1 : y = link <;> by_cases h2 : y ∈ found <;>
    by_cases h3 : y ∈ protoKeys <;> by_cases h4 : y = [] <;>
    simp [h1, h2, h3, h4]

theorem linksCore_eq (ms : List (List Char)) (found : List (List Char)) :
    linksCore ms found = firstSeenDedup ((ms.map resolveToken).filter (freshLink found)) := by
  induction ms generalizing found with
  | nil => simp [linksCore, firstSeenDedup]
  | cons m ms ih =>
      by_cases hf : freshLink found (resolveToken m) = true
      · simp only [linksCore, List.map_cons, List.filter_cons, hf, if_pos]
        simp only [firstSeenDedup]
        rw [ih, List.filter_filter]
        refine congrArg _ (congrArg _ (List.filter_congr fun y _ => ?_))
        exact freshLink_cons (resolveToken m) found y
      · rw [Bool.not_eq_true] at hf
        simp only [linksCore, List.map_cons, List.filter_cons, hf]
        simp only [Bool.false_eq_true, if_false]
        exact ih found

/-- C3 counterexample: on the text `[[toString]]` the code returns no
links at all, while the claimed description (all non-empty resolved
targets, deduplicated first-seen) yields `["toString"]`.  The seen-set
`found = {}` inherits `toString` from `Object.prototype`, so
`found['toString'] === undefined` is already false on first sight. -/
theorem claim_c3_counterexample :
    links ("[[toString]]".data) false = [] ∧
    firstSeenDedup (((findTokens ("[[toString]]".data)).map resolveToken).filter
      (fun l => decide (l ≠ []))) = ["toString".data] := by
  constructor
  · decide
  · have h : ((findTokens ("[[toString]]".data)).map resolveToken).filter
        (fun l => decide (l ≠ [])) = ["toString".data] := by decide
    rw [h]
    simp [firstSeenDedup]

/-- C3 (amended): `links()` returns the resolved targets of the
non-overlapping `[[...]]` tokens in left-to-right scan order, deduplicated
by exact string equality preserving first-seen order, where a token whose
resolved target is empty contributes nothing and a target whose name
equals an `Object.prototype` property name is always dropped (the plain
seen-set object inherits those keys); in particular `[[Foo]]` twice
yields `Foo` exactly once. -/
theorem claim_c3_amended :
    (∀ text : List Char,
      links text false =
        firstSeenDedup (((findTokens text).map resolveToken).filter
          (fun l => decide (l ≠ []) && !(decide (l ∈ protoKeys))))) ∧
    links ("x [[Foo]] y [[Foo]]".data) false = ["Foo".data] := by
  refine ⟨fun text => ?_, by decide⟩
  have hp : (fun l => decide (l ≠ []) && !(decide (l ∈ protoKeys))) = freshLink [] := by
    funext l
    simp [freshLink]
  rw [hp]
  simpa [links] using linksCore_eq (findTokens text) []

/-- C4: arrow links resolve both directions to the target side -
`[[A->B]]` and `[[B<-A]]` both yield `B` - and with multiple arrows in
one token the rightmost `->` (resp. the leftmost `<-`) is the divider, so
`[[A->B->C]]` yields `C` and `[[B<-A<-C]]` yields `B` (the display text
containing the remaining arrow). -/
theorem claim_c4 :
    links ("[[A->B]]".data) false = ["B".data] ∧
    links ("[[B<-A]]".data) false = ["B".data] ∧
    links ("[[A->B->C]]".data) false = ["C".data] ∧
    links ("[[B<-A<-C]]".data) false = ["B".data] := by
  refine ⟨by decide, by decide, by decide, by decide⟩

/-- C5: with `internalOnly` true, `links` is exactly the `internalOnly =
false` result with every absolute-URI-looking target dropped; on
`[[http://x.com]]` it returns nothing with the filter on and the URI with
it off. -/
theorem claim_c5 :
    (∀ text : List Char,
      links text true = (links text false).filter (fun l => !(isAbsoluteUri l))) ∧
    links ("[[http://x.com]]".data) true = [] ∧
    links ("[[http://x.com]]".data) false = ["http://x.com".data] := by
  refine ⟨fun text => rfl, by decide, by decide⟩

theorem isPrefixOf_head {a : Char} {as l : List Char}
    (h : (a :: as).isPrefixOf l = true) :
    ∃ l', l = a :: l' ∧ as.isPrefixOf l' = true := by
  cases l with
  | nil => simp [List.isPrefixOf] at h
  | cons b bs =>
      simp only [List.isPrefixOf, Bool.and_eq_true, beq_iff_eq] at h
      exact ⟨bs, by rw [h.1], h.2⟩

theorem containsSeq_of_isPrefixOf {pat l : List Char}
    (h : pat.isPrefixOf l = true) : containsSeq l pat = true := by
  cases l with
  | nil =>
      cases pat with
      | nil => rfl
      | cons p ps => simp [List.isPrefixOf] at h
  | cons c rest => simp [containsSeq, h]

theorem containsSeq_cons_false {c : Char} {rest pat : List Char}
    (h : containsSeq (c :: rest) pat = false) :
    pat.isPrefixOf (c :: rest) = false ∧ containsSeq rest pat = false := by
  simpa [containsSeq] using h

theorem containsSeq_tail_true {c : Char} {rest pat : List Char}
    (h : containsSeq rest pat = true) : containsSeq (c :: rest) pat = true := by
  simp [containsSeq, h]

theorem append_isPrefixOf_left {p q l : List Char}
    (h : (p ++ q).isPrefixOf l = true) : p.isPrefixOf l = true := by
  induction p generalizing l with
  | nil => simp [List.isPrefixOf]
  | cons a p' ih =>
      obtain ⟨l', rfl, h'⟩ := isPrefixOf_head h
      simp [List.isPrefixOf, ih h']

theorem replaceSimpleGo_id (old new : List Char) :
    ∀ (f : Nat) (l : List Char), containsSeq l old = false →
      replaceSimpleGo old new f l = l := by
  intro f l
  induction f, l using replaceSimpleGo.induct old new with
  | case1 x => intro _; simp [replaceSimpleGo]
  | case2 f rest hpre inner rest2 hst ih =>
      intro h
      exact absurd (containsSeq_of_isPrefixOf hpre)
        (by simp [(containsSeq_cons_false (containsSeq_cons_false h).2).2])
  | case3 f rest hpre hst ih =>
      intro h
      exact absurd (containsSeq_of_isPrefixOf hpre)
        (by simp [(containsSeq_cons_false (containsSeq_cons_false h).2).2])
  | case4 f rest hpre ih =>
      intro h
      have h2 := (containsSeq_cons_false h).2
      rw [Bool.not_eq_true] at hpre
      simp only [replaceSimpleGo, hpre, Bool.false_eq_true, if_false]
      rw [ih h2]
  | case5 f head rest hne ih =>
      intro h
      have h2 := (containsSeq_cons_false h).2
      rw [replaceSimpleGo.eq_def]
      split
      · rfl
      · next heqf heql =>
          exfalso
          rw [List.cons.injEq] at heql
          exact hne _ heql.1 heql.2
      · next f2 head2 rest2 hne2 heqf heql =>
          rw [List.cons.injEq] at heql
          obtain ⟨e1, e2⟩ := heql
          injection heqf with ef
          subst e1
          subst e2
          subst ef
          rw [ih h2]
      · next heqf heql => exact absurd heql (by simp)
  | case6 n => intro _; simp [replaceSimpleGo]

theorem compoundAt_none {old v : List Char}
    (h : containsSeq v old = false) : compoundAt old v = none := by
  have h1 : ('|' :: old).isPrefixOf v = false := by
    by_contra hc
    rw [Bool.not_eq_false] at hc
    obtain ⟨v', rfl, hp⟩ := isPrefixOf_head hc
    rw [containsSeq_tail_true (containsSeq_of_isPrefixOf hp)] at h
    exact Bool.true_eq_false.mp h
  have h2 : ('-' :: '>' :: old).isPrefixOf v = false := by
    by_contra hc
    rw [Bool.not_eq_false] at hc
    obtain ⟨v1, rfl, hp1⟩ := isPrefixOf_head hc
    obtain ⟨v2, rfl, hp2⟩ := isPrefixOf_head hp1
    rw [containsSeq_tail_true (containsSeq_tail_true (containsSeq_of_isPrefixOf hp2))] at h
    exact Bool.true_eq_false.mp h
  simp [compoundAt, compoundArrowAt, h1, h2]

theorem compoundTry_none {old : List Char} :
    ∀ {v : List Char}, containsSeq v old = false → compoundTry old v = none := by
  intro v
  induction v using compoundTry.induct old with
  | case1 => intro _; rfl
  | case2 c rest g2 s r hAt =>
      intro h
      rw [compoundAt_none h] at hAt
      exact absurd hAt (by simp)
  | case3 c rest hAt hdot ih =>
      intro h
      have h2 := (containsSeq_cons_false h).2
      simp only [compoundTry, hAt, hdot, if_true, ih h2]
      rfl
  | case4 c rest hAt hdot =>
      intro h
      rw [Bool.not_eq_true] at hdot
      simp only [compoundTry, hAt, hdot, Bool.false_eq_true, if_false]

theorem replaceCompoundGo_id (old new : List Char) :
    ∀ (f : Nat) (l : List Char), containsSeq l old = false →
      replaceCompoundGo old new f l = l := by
  intro f l
  induction f, l using replaceCompoundGo.induct old new with
  | case1 x => intro _; simp [replaceCompoundGo]
  | case2 f rest g1 g2 s rest2 htry ih =>
      intro h
      rw [compoundTry_none (containsSeq_cons_false (containsSeq_cons_false h).2).2] at htry
      exact absurd htry (by simp)
  | case3 f rest htry ih =>
      intro h
      have h2 := (containsSeq_cons_false h).2
      simp only [replaceCompoundGo, htry]
      rw [ih h2]
  | case4 f head rest hne ih =>
      intro h
      have h2 := (containsSeq_cons_false h).2
      rw [replaceCompoundGo.eq_def]
      split
      · rfl
      · next heqf heql =>
          exfalso
          rw [List.cons.injEq] at heql
          exact hne _ heql.1 heql.2
      · next f2 head2 rest2 hne2 heqf heql =>
          rw [List.cons.injEq] at heql
          obtain ⟨e1, e2⟩ := heql
          injection heqf with ef
          subst e1
          subst e2
          subst ef
          rw [ih h2]
      · next heqf heql => exact absurd heql (by simp)
  | case5 n => intro _; simp [replaceCompoundGo]

theorem replaceReverseGo_id (old new : List Char) :
    ∀ (f : Nat) (l : List Char), containsSeq l old = false →
      replaceReverseGo old new f l = l := by
  intro f l
  induction f, l using replaceReverseGo.induct old new with
  | case1 x => intro _; simp [replaceReverseGo]
  | case2 f rest hpre g2 s r hrt ih =>
      intro h
      exact absurd (containsSeq_of_isPrefixOf (append_isPrefixOf_left hpre))
        (by simp [(containsSeq_cons_false (containsSeq_cons_false h).2).2])
  | case3 f rest hpre hrt ih =>
      intro h
      exact absurd (containsSeq_of_isPrefixOf (append_isPrefixOf_left hpre))
        (by simp [(containsSeq_cons_false (containsSeq_cons_false h).2).2])
  | case4 f rest hpre ih =>
      intro h
      have h2 := (containsSeq_cons_false h).2
      rw [Bool.not_eq_true] at hpre
      simp only [replaceReverseGo, hpre, Bool.false_eq_true, if_false]
      rw [ih h2]
  | case5 f head rest hne ih =>
      intro h
      have h2 := (containsSeq_cons_false h).2
      rw [replaceReverseGo.eq_def]
      split
      · rfl
      · next heqf heql =>
          exfalso
          rw [List.cons.injEq] at heql
          exact hne _ heql.1 heql.2
      · next f2 head2 rest2 hne2 heqf heql =>
          rw [List.cons.injEq] at heql
          obtain ⟨e1, e2⟩ := heql
          injection heqf with ef
          subst e1
          subst e2
          subst ef
          rw [ih h2]
      · next heqf heql => exact absurd heql (by simp)
  | case6 n => intro _; simp [replaceReverseGo]

/-- C6: `replaceLink(oldTarget, newTarget)` issues its persistence write
(`this.save`) exactly when the rewritten text differs from the original;
on a text containing no occurrence of the (metacharacter-free) old target
none of the three patterns can match, so the text is unchanged and no
save is issued; and the bare-form example `"go to [[Old]]"` is rewritten
to `"go to [[New]]"` with a save. -/
theorem claim_c6 :
    (∀ old new text : List Char, regexLiteral old = true →
      ((replaceLink old new text).2 = true ↔ (replaceLink old new text).1 ≠ text) ∧
      (containsSeq text old = false → replaceLink old new text = (text, false))) ∧
    replaceLink ("Old".data) ("New".data) ("go to [[Old]]".data) =
      ("go to [[New]]".data, true) := by
  refine ⟨fun old new text _ => ⟨?_, ?_⟩, by decide⟩
  · unfold replaceLink
    by_cases hc : replaceReverse old new
        (replaceCompound old new (replaceSimple old new text)) ≠ text
    · rw [if_pos hc]
      simp [hc]
    · rw [if_neg hc]
      simp
  · intro hno
    have h1 : replaceSimple old new text = text :=
      replaceSimpleGo_id old new _ text hno
    have h2 : replaceCompound old new text = text :=
      replaceCompoundGo_id old new _ text hno
    have h3 : replaceReverse old new text = text :=
      replaceReverseGo_id old new _ text hno
    unfold replaceLink
    rw [h1, h2, h3]
    simp

/-- C6 witness: the general parts of the theorem applied to the
metacharacter-free target `Old` and a text that does not contain it. -/
theorem claim_c6_witness :
    regexLiteral ("Old".data) = true ∧
    containsSeq ("hello world".data) ("Old".data) = false ∧
    replaceLink ("Old".data) ("New".data) ("hello world".data) =
      ("hello world".data, false) := by
  refine ⟨by decide, by decide, ?_⟩
  exact (claim_c6.1 ("Old".data) ("New".data) ("hello world".data) (by decide)).2 (by decide)

theorem escapeChar_length_pos (c : Char) : 1 ≤ (escapeChar c).length := by
  unfold escapeChar
  split_ifs <;> simp

theorem uEscape_length_ge (l : List Char) : l.length ≤ (uEscape l).length := by
  induction l with
  | nil => simp [uEscape]
  | cons c rest ih =>
      have := escapeChar_length_pos c
      simp only [uEscape, List.length_append, List.length_cons]
      omega

set_option maxRecDepth 10000 in
/-- C7 counterexample: a 50-character text of ampersands escapes to 250
characters, which is longer than 100, so `excerpt` truncates it rather
than returning the escaped text unchanged as the claim states for every
50-character text. -/
theorem claim_c7_counterexample :
    (List.replicate 50 '&').length = 50 ∧
    excerpt (List.replicate 50 '&') ≠ uEscape (List.replicate 50 '&') := by
  exact ⟨by decide, by decide⟩

/-- C7 (amended): `excerpt()` escapes first and truncates afterwards: on
every 150-character text it returns exactly 99 characters of escaped
content followed by the `&hellip;` marker (escaping never shortens, so
the escaped text always exceeds 100 characters); on a 50-character text
it returns the escaped text unchanged provided the escaped form is at
most 100 characters (a 50-character text of escapable characters escapes
past that bound and is truncated like any long text). -/
theorem claim_c7_amended (text : List Char) :
    (text.length = 150 →
      excerpt text = (uEscape text).take 99 ++ ("&hellip;".data) ∧
      ((uEscape text).take 99).length = 99) ∧
    (text.length = 50 → (uEscape text).length ≤ 100 → excerpt text = uEscape text) := by
  constructor
  · intro h150
    have hge : 150 ≤ (uEscape text).length := by
      have := uEscape_length_ge text
      omega
    constructor
    · unfold excerpt
      rw [if_pos (by omega)]
    · rw [List.length_take]
      omega
  · intro _ hle
    unfold excerpt
    rw [if_neg (by omega)]

set_option maxRecDepth 10000 in
/-- C7 witness: the amended theorem applied to a 150-character text and a
50-character text of unescapable characters. -/
theorem claim_c7_witness :
    (List.replicate 150 'a').length = 150 ∧
    (List.replicate 50 'b').length = 50 ∧
    (uEscape (List.replicate 50 'b')).length ≤ 100 ∧
    excerpt (List.replicate 150 'a') =
      (uEscape (List.replicate 150 'a')).take 99 ++ ("&hellip;".data) ∧
    excerpt (List.replicate 50 'b') = uEscape (List.replicate 50 'b') := by
  refine ⟨by decide, by decide, by decide, ?_, ?_⟩
  · exact ((claim_c7_amended (List.replicate 150 'a')).1 (by decide)).1
  · exact (claim_c7_amended (List.replicate 50 'b')).2 (by decide) (by decide)

/-- C9: `validate` reports failure by returning a descriptive message (an
`Option String`, never an exception): it returns a message exactly when
the name is empty/missing, or when another passage of the story - one
whose id differs from `attrs.id` under JavaScript loose equality - has
the same name case-insensitively; `noValidation` suppresses everything
and `noDupeValidation` suppresses only the duplicate check. -/
theorem claim_c9 (sibs : List Attrs) (attrs : Attrs) (opts : Opts) :
    (validate sibs attrs opts).isSome = true ↔
      (opts.noValidation = false ∧
        (attrs.name = "" ∨
          (opts.noDupeValidation = false ∧
            ∃ p ∈ sibs, attrs.id ≠ p.id ∧ strLower attrs.name = strLower p.name))) := by
  rcases opts with ⟨nv, nd⟩
  cases nv <;> cases nd <;> by_cases hn : attrs.name = "" <;>
    by_cases hd : sibs.any (isDupe attrs) = true <;>
    simp_all [validate, isDupe, List.any_eq_true, Bool.and_eq_true, decide_eq_true_eq]
